import Mathlib

/-!
Shallow embedding of the core of cernvm/libcernvm:
  * `contextiso.cpp` — the ISO 9660 context-media builders
    `build_ami_ci_cdrom` and `build_simple_cdrom`;
  * `ParameterMap.cpp` / `ParameterMap.h` — the hierarchical parameter store;
  * `DownloadProvider.cpp` — the cURL download provider's abort machinery;
  * `Hypervisor.h` — the `HVSession` constructor's default seeding.

Byte buffers are modelled as lists of write regions (offset, size) plus the
numeric values stored into size/extent fields; machine integers are `Nat`
(all quantities involved are sizes and offsets, non-negative in every
execution the claims range over).  Keys of the parameter store are modelled
as `List Char` (C++ `std::string`), values as `String`.
-/

/-! ## Context media builder (`contextiso.cpp`) -/

/-- Fixed capacity of the produced CD-ROM image (`CONTEXTISO_CDROM_SIZE`). -/
def CONTEXTISO_CDROM_SIZE : Nat := 358400

/-- Offset of the primary volume descriptor. -/
def PRIMARY_DESCRIPTOR_OFFSET : Nat := 0x8000

/-- Start of the data region (`CONTENTS_OFFSET`). -/
def CONTENTS_OFFSET : Nat := 0xC000

/-- Offset of the README file content. -/
def README_CONTENT_OFFSET : Nat := 0xE000

/-- Offset of `/ec2/latest/meta-data.json` (convention A metadata). -/
def EC_META_CONTENT_OFFSET : Nat := 0xE800

/-- Offset of `/ec2/latest/user-data` (convention A user data). -/
def EC_USER_CONTENT_OFFSET : Nat := 0xF000

/-- Default offset of `/openstack/latest/meta_data.json` (convention B metadata). -/
def OS_META_CONTENT_OFFSET : Nat := 0xF800

/-- Default offset of `/openstack/latest/user_data` (convention B user data). -/
def OS_USER_CONTENT_OFFSET : Nat := 0x10000

/-- The README payload (`README_CONTENT` in `contextiso.cpp`). -/
def README_CONTENT : String :=
"We support two ways of contextualization: through amiconfig and cloud init.\n" ++
"Amiconfig and cloud-init pick up the (same) user-data from different paths.\n" ++
"\n" ++
"Amiconfig:\n" ++
"Amiconfig data are put (in the plaintext format) to the \"/ec2/latest/user-data\" file.\n" ++
"\"ec2/latest/meta-data.json\" contains only an empty dictionary.\n" ++
"\n" ++
"Cloud init:\n" ++
"Cloud init data are put (in the plaintext format) to the \"/openstack/latest/user_data\" file.\n" ++
"\"/openstack/latest/meta_data.json\" contains only an empty dictionary.\n"

/-- The constant metadata document (`META_DATA_CONTENT` in `contextiso.cpp`). -/
def META_DATA_CONTENT : String :=
"\x7b\n    \"uuid\": \"83679162-1378-4288-a2d4-70e13ec132aa\"\n\x7d\n"

/-- Length of `META_DATA_CONTENT` (the `metaDataContentSize` local). -/
def metaDataContentSize : Nat := META_DATA_CONTENT.length

/-- Length of `README_CONTENT` (the `readmeSize` local). -/
def readmeSize : Nat := README_CONTENT.length

/-- ISO 9660 pivot-endian representation written by `isosetl`: four bytes
little-endian followed by four bytes big-endian of the same value. -/
def isosetl (x : Nat) : List Nat :=
  [x % 256, x / 2 ^ 8 % 256, x / 2 ^ 16 % 256, x / 2 ^ 24 % 256,
   x / 2 ^ 24 % 256, x / 2 ^ 16 % 256, x / 2 ^ 8 % 256, x % 256]

/-- Result of the `while (x % 2048) ++x;` alignment loops in
`build_ami_ci_cdrom`: the least multiple of 2048 that is `≥ x`. -/
def alignUp2048 (x : Nat) : Nat :=
  if x % 2048 = 0 then x else (x / 2048 + 1) * 2048

/-- The relocation test of `build_ami_ci_cdrom`
(`EC_USER_CONTENT_OFFSET + contentSize >= osMetaOffset`, with `osMetaOffset`
still holding its default value at that point). -/
def amiRelocates (contentSize : Nat) : Prop :=
  OS_META_CONTENT_OFFSET ≤ EC_USER_CONTENT_OFFSET + contentSize

instance (contentSize : Nat) : Decidable (amiRelocates contentSize) := by
  unfold amiRelocates; infer_instance

/-- The convention-B (openstack) metadata/user-data offsets computed by
`build_ami_ci_cdrom`: the fixed defaults, or the relocated, 2048-aligned
offsets when the relocation test fires. -/
def amiOsOffsets (contentSize : Nat) : Nat × Nat :=
  if amiRelocates contentSize then
    let osMetaOffset := alignUp2048 (EC_USER_CONTENT_OFFSET + contentSize + 1)
    let osUserOffset := alignUp2048 (osMetaOffset + metaDataContentSize + 1)
    (osMetaOffset, osUserOffset)
  else
    (OS_META_CONTENT_OFFSET, OS_USER_CONTENT_OFFSET)

/-- The bytes `build_ami_ci_cdrom` stores into the two convention-B extent
fields of the directory record at `0xD800`: `none` when the relocation branch
is not taken (the template values are left in place). -/
def amiExtentPatch (contentSize : Nat) : Option (List Nat × List Nat) :=
  if amiRelocates contentSize then
    let o := amiOsOffsets contentSize
    some (isosetl (o.1 / 2048), isosetl (o.2 / 2048))
  else
    none

/-- The capped `lDataSize` computed by `build_ami_ci_cdrom` (used only for
the `volume_space_size` field of the primary descriptor). -/
def amiLDataSize (contentSize : Nat) : Nat :=
  let l := 2 * contentSize + 2 * metaDataContentSize + readmeSize
  if l > CONTEXTISO_CDROM_SIZE - CONTENTS_OFFSET then
    CONTEXTISO_CDROM_SIZE - CONTENTS_OFFSET
  else l

/-- The content `memcpy` regions (offset, length) issued by
`build_ami_ci_cdrom` at its lines 184–194: readme, convention-A metadata and
user data, convention-B metadata and user data.  The lengths are the raw
`readmeSize`, `metaDataContentSize` and `contentSize` values — the code
truncates none of them. -/
def amiContentWrites (contentSize : Nat) : List (Nat × Nat) :=
  let o := amiOsOffsets contentSize
  [(README_CONTENT_OFFSET, readmeSize),
   (EC_META_CONTENT_OFFSET, metaDataContentSize),
   (EC_USER_CONTENT_OFFSET, contentSize),
   (o.1, metaDataContentSize),
   (o.2, contentSize)]

/-- A list of write regions stays inside a buffer of `cap` bytes. -/
def writesWithinCapacity (ws : List (Nat × Nat)) (cap : Nat) : Prop :=
  ∀ w ∈ ws, w.1 + w.2 ≤ cap

instance (ws : List (Nat × Nat)) (cap : Nat) :
    Decidable (writesWithinCapacity ws cap) := by
  unfold writesWithinCapacity; infer_instance

/-- The capped `lDataSize` of `build_simple_cdrom`: the number of bytes it
actually copies into the data region at `CONTENTS_OFFSET`. -/
def simpleLDataSize (size : Nat) : Nat :=
  if size > CONTEXTISO_CDROM_SIZE - CONTENTS_OFFSET then
    CONTEXTISO_CDROM_SIZE - CONTENTS_OFFSET
  else size

/-! ### Date field of the primary volume descriptor -/

/-- The fields of the C `struct tm` the builders read after `gmtime`. -/
structure TmStruct where
  tm_year : Nat
  tm_mon : Nat
  tm_mday : Nat
  tm_hour : Nat
  tm_min : Nat
  tm_sec : Nat
deriving DecidableEq, Repr

/-- Models the C library `gmtime` contract for a UTC instant given as a
calendar date: `tm_year` counts years since 1900 and `tm_mon` is zero-based
(January is 0, December is 11); `tm_mday`, `tm_hour`, `tm_min`, `tm_sec`
are the calendar values themselves. -/
def gmtimeOf (year month mday hour minute sec : Nat) : TmStruct :=
  ⟨year - 1900, month - 1, mday, hour, minute, sec⟩

/-- The `sprintf` conversion `%0Nu` for a non-negative value: decimal digits,
zero-padded on the left to width `w`. -/
def fmtPad (w n : Nat) : String :=
  let s := toString n
  if s.length < w then String.mk (List.replicate (w - s.length) '0') ++ s
  else s

/-- The 17-character date string both builders build with
`sprintf("%04u%02u%02u%02u%02u%02u000", tm_year + 1900, tm_mon, tm_mday,
tm_hour, tm_min, tm_sec)` — note the month argument is `tm_mon` itself,
and the trailing `'0'` is the GMT-offset byte. -/
def buildDateNow (t : TmStruct) : String :=
  fmtPad 4 (t.tm_year + 1900) ++ fmtPad 2 t.tm_mon ++ fmtPad 2 t.tm_mday ++
  fmtPad 2 t.tm_hour ++ fmtPad 2 t.tm_min ++ fmtPad 2 t.tm_sec ++ "000"

/-- The month field of a built date string: characters 4 and 5. -/
def dateMonthField (s : String) : List Char :=
  (s.toList.drop 4).take 2

/-! ## Parameter store (`ParameterMap.cpp` / `ParameterMap.h`) -/

/-- Keys of the flat shared map (C++ `std::string`). -/
abbrev PMKey := List Char

/-- Modelled from the spec: the group-separator character
`PMAP_GROUP_SEPARATOR`, defined in `Config.h` which is not under `src/`;
subgroup prefixes are `parent prefix + name + separator` (§3).  The claims
do not depend on which character it is. -/
def PMAP_GROUP_SEPARATOR : Char := '/'

/-- The safe key/value alphabet (`SAFE_KEY_CHARS`). -/
def SAFE_KEY_CHARS : List Char :=
  "0123456789_-abcdefghijklmnopqrstuvwxyzABCDEFGHIJKLMNOPQRSTUVWXYZ".toList

/-- Lookup in the flat map (`std::map::find`): the value at the first
matching key, if any. -/
def findV : List (PMKey × String) → PMKey → Option String
  | [], _ => none
  | (k, v) :: r, q => if k = q then some v else findV r q

/-- Remove the entry found by `find` (`parameters->erase(it)`). -/
def eraseK : List (PMKey × String) → PMKey → List (PMKey × String)
  | [], _ => []
  | (k, v) :: r, q => if k = q then r else (k, v) :: eraseK r q

/-- `ParameterMap::putOnMap`: erase the key if present, then insert the
pair (i.e. an overwriting store). -/
def putOnMap : List (PMKey × String) → PMKey → String → List (PMKey × String)
  | [], k, v => [(k, v)]
  | (k0, v0) :: r, k, v =>
    if k0 = k then (k, v) :: r else (k0, v0) :: putOnMap r k v

/-- `std::map::insert`: store the pair only when the key is absent. -/
def insertIfAbsent (m : List (PMKey × String)) (k : PMKey) (v : String) :
    List (PMKey × String) :=
  if (findV m k).isSome then m else putOnMap m k v

/-- The shared part of a parameter-store hierarchy: the flat map all nodes
view through their prefixes, plus an instrumentation counter of how many
times `commitChanges` has been invoked (the persistence adapter is an
external collaborator; `commitChanges` only forwards to the root). -/
structure PMStore where
  params : List (PMKey × String)
  commits : Nat
deriving DecidableEq, Repr

/-- One `ParameterMap` node: its prefix and its own `locked`/`changed`
flag pair (each node instance carries its own pair; subgroup nodes are
created with both flags cleared). -/
structure PMNode where
  pfx : PMKey
  locked : Bool
  changed : Bool
deriving DecidableEq, Repr

/-- A freshly constructed root node (`ParameterMap()`), and the store it
owns. -/
def pmFreshStore : PMStore := ⟨[], 0⟩

/-- Strict-mode key sanitizing of `ParameterMap::get`: characters outside
`SAFE_KEY_CHARS` are replaced by an underscore. -/
def sanitizeKey (k : PMKey) : PMKey :=
  k.map fun c => if SAFE_KEY_CHARS.contains c then c else '_'

/-- `ParameterMap::get`: look up `prefix + name` (sanitized first in strict
mode) and return the stored value, or the default when absent. -/
def pmGet (n : PMNode) (st : PMStore) (kname : PMKey) (defaultValue : String)
    (strict : Bool) : String :=
  let name := if strict then sanitizeKey kname else kname
  (findV st.params (n.pfx ++ name)).getD defaultValue

/-- Bump the commit counter: a `commitChanges` invocation reaching the
root of the hierarchy. -/
def pmCommit (st : PMStore) : PMStore :=
  { st with commits := st.commits + 1 }

/-- The `if (!locked) commitChanges(); else changed = true;` epilogue shared
by the write operations. -/
def pmWriteEpilogue (n : PMNode) (st : PMStore) : PMNode × PMStore :=
  if n.locked then ({ n with changed := true }, st) else (n, pmCommit st)

/-- `ParameterMap::set`: overwrite `prefix + name`, then commit or mark
dirty. -/
def pmSet (n : PMNode) (st : PMStore) (kname : PMKey) (value : String) :
    PMNode × PMStore :=
  pmWriteEpilogue n { st with params := putOnMap st.params (n.pfx ++ kname) value }

/-- `ParameterMap::setNum<int>`: `set(kname, ntos(value))`. -/
def pmSetNum (n : PMNode) (st : PMStore) (kname : PMKey) (value : Int) :
    PMNode × PMStore :=
  pmSet n st kname (toString value)

/-- `ParameterMap::setBool`: `set(kname, value ? "y" : "n")`. -/
def pmSetBool (n : PMNode) (st : PMStore) (kname : PMKey) (value : Bool) :
    PMNode × PMStore :=
  pmSet n st kname (if value then "y" else "n")

/-- `ParameterMap::setDefault`: insert `prefix + name` only when absent;
never commits and never touches the dirty flag. -/
def pmSetDefault (n : PMNode) (st : PMStore) (kname : PMKey) (value : String) :
    PMStore :=
  { st with params := insertIfAbsent st.params (n.pfx ++ kname) value }

/-- `ParameterMap::erase`: remove `prefix + name` when present.  The source
returns without invoking `commitChanges` and without marking the node dirty. -/
def pmErase (n : PMNode) (st : PMStore) (name : PMKey) : PMStore :=
  { st with params := eraseK st.params (n.pfx ++ name) }

/-- `ParameterMap::lock`: set `locked` and reset `changed`. -/
def pmLock (n : PMNode) : PMNode :=
  { n with locked := true, changed := false }

/-- `ParameterMap::unlock`: clear `locked`, then commit once if `changed`
is set (the source does not reset `changed` here). -/
def pmUnlock (n : PMNode) (st : PMStore) : PMNode × PMStore :=
  let n1 := { n with locked := false }
  if n.changed then (n1, pmCommit st) else (n1, st)

/-- `ParameterMap::contains`: key present, and non-empty when `useBlank`. -/
def pmContains (n : PMNode) (st : PMStore) (name : PMKey) (useBlank : Bool) :
    Bool :=
  match findV st.params (n.pfx ++ name) with
  | none => false
  | some v => if useBlank then !v.isEmpty else true

/-- `ParameterMap::subgroup`: a new node whose prefix is
`prefix + name + PMAP_GROUP_SEPARATOR`, with cleared flags. -/
def pmSubgroup (n : PMNode) (kname : PMKey) : PMNode :=
  ⟨n.pfx ++ kname ++ [PMAP_GROUP_SEPARATOR], false, false⟩

/-- `ParameterMap::enumKeys`: the keys of the flat map that start with the
node's prefix and whose remainder contains no group separator, with the
prefix stripped (the C++ checks `key.substr(0, prefix.length()) == prefix`). -/
def pmEnumKeys (n : PMNode) (st : PMStore) : List PMKey :=
  ((st.params.map Prod.fst).filter fun k =>
      (k.take n.pfx.length == n.pfx) &&
      !((k.drop n.pfx.length).contains PMAP_GROUP_SEPARATOR)).map
    fun k => k.drop n.pfx.length

/-- `ParameterMap::clear`: erase exactly this node's visible keys; no
commit, no dirty flag. -/
def pmClear (n : PMNode) (st : PMStore) : PMStore :=
  { st with
    params := (pmEnumKeys n st).foldl (fun ps k => eraseK ps (n.pfx ++ k)) st.params }

/-- `ParameterMap::clearAll`: erase the entire shared map. -/
def pmClearAll (st : PMStore) : PMStore :=
  { st with params := [] }

/-- `ParameterMap::toMap`: append this node's visible key/value pairs to the
output map via `std::map::insert` (no overwrite), after clearing it when
`clearBefore`. -/
def pmToMap (n : PMNode) (st : PMStore) (out : List (PMKey × String))
    (clearBefore : Bool) : List (PMKey × String) :=
  let out0 := if clearBefore then [] else out
  (pmEnumKeys n st).foldl
    (fun a k => insertIfAbsent a k ((findV st.params (n.pfx ++ k)).getD ""))
    out0

/-- `ParameterMap::fromMap`: for each input pair, store it under
`prefix + key` when `replace` is set or the key is absent; afterwards commit
or mark dirty. -/
def pmFromMap (n : PMNode) (st : PMStore) (m : List (PMKey × String))
    (clearBefore replace : Bool) : PMNode × PMStore :=
  let st0 := if clearBefore then pmClear n st else st
  let ps := m.foldl
    (fun ps kv =>
      let k := n.pfx ++ kv.1
      if replace || (findV ps k).isNone then putOnMap ps k kv.2 else ps)
    st0.params
  pmWriteEpilogue n { st0 with params := ps }

/-- `ParameterMap::fromParameters`: enumerate the source node's visible keys
and import them under `prefix + key`.  The source reads each value with
`(*ptr->parameters)[key]` — the stripped key, not the source-prefixed one —
which yields the default-constructed empty string when that bare key is
absent; the model mirrors that read with `getD ""`. -/
def pmFromParameters (n : PMNode) (st : PMStore) (src : PMNode)
    (srcStore : PMStore) (clearBefore replace : Bool) : PMNode × PMStore :=
  let st0 := if clearBefore then pmClear n st else st
  let ps := (pmEnumKeys src srcStore).foldl
    (fun ps k =>
      let k' := n.pfx ++ k
      if replace || (findV ps k').isNone then
        putOnMap ps k' ((findV srcStore.params k).getD "")
      else ps)
    st0.params
  pmWriteEpilogue n { st0 with params := ps }

/-- Whether `ParameterMap::filterParameter` finds a character to strip:
the parameter exists and its value has a character outside
`SAFE_KEY_CHARS`. -/
def pmFilterModifies (n : PMNode) (st : PMStore) (parameter : PMKey) : Bool :=
  pmContains n st parameter false &&
    (pmGet n st parameter "" false).toList.any fun c => !SAFE_KEY_CHARS.contains c

/-- `ParameterMap::filterParameter`: strip characters outside
`SAFE_KEY_CHARS` from the value of `parameter`; when something was stripped,
store the filtered value back (committing or marking dirty) and return
`false` iff nothing of the value survived.  Absent parameters and clean
values return `true` with no store mutation and no commit. -/
def pmFilterParameter (n : PMNode) (st : PMStore) (parameter : PMKey) :
    (PMNode × PMStore) × Bool :=
  if pmContains n st parameter false then
    let value := pmGet n st parameter "" false
    let filtered := String.mk (value.toList.filter fun c => SAFE_KEY_CHARS.contains c)
    if value.toList.any (fun c => !SAFE_KEY_CHARS.contains c) then
      let st1 := { st with params := putOnMap st.params (n.pfx ++ parameter) filtered }
      (pmWriteEpilogue n st1, !filtered.isEmpty)
    else ((n, st), true)
  else ((n, st), true)

/-! ### JSON import -/

mutual
/-- A JSON value as `fromJSON` distinguishes them: string, int, object, or
any other type (`jother` covers null, bool, real, array — all skipped). -/
inductive JVal where
  | jstr : String → JVal
  | jint : Int → JVal
  | jobj : JMembers → JVal
  | jother : JVal

/-- The member list of a JSON object (`getMemberNames` order). -/
inductive JMembers where
  | jnil : JMembers
  | jcons : PMKey → JVal → JMembers → JMembers
end

/-- The member loop of `ParameterMap::fromJSON`.  Faithful to the source:
the storage key `k` for string and int members is the bare member name —
the node prefix is NOT prepended (unlike `fromMap`/`fromParameters`), and
the `replace`-guard existence check also uses the bare name.  Object
members recurse into `subgroup(k)->fromJSON(v)` with default arguments
(`clearBefore = false`, `replace = true`); the subgroup node is freshly
created, hence unlocked, so the recursive call's tail — no `clear`, then
the commit epilogue of an unlocked node — is inlined here as `pmCommit`
around the recursive member loop.  Other member types are skipped. -/
def pmFromJSONMembers : PMNode → PMStore → JMembers → Bool → PMStore
  | _, st, .jnil, _ => st
  | n, st, .jcons k v rest, replace =>
    let st' :=
      match v with
      | .jobj mem2 => pmCommit (pmFromJSONMembers (pmSubgroup n k) st mem2 true)
      | .jstr s =>
        if replace || (findV st.params k).isNone then
          { st with params := putOnMap st.params k s }
        else st
      | .jint i =>
        if replace || (findV st.params k).isNone then
          { st with params := putOnMap st.params k (toString i) }
        else st
      | .jother => st
    pmFromJSONMembers n st' rest replace

/-- `ParameterMap::fromJSON`: optional `clear`, the member loop, then the
shared commit-or-mark-dirty epilogue. -/
def pmFromJSONVal (n : PMNode) (st : PMStore) (mem : JMembers)
    (clearBefore replace : Bool) : PMNode × PMStore :=
  let st0 := if clearBefore then pmClear n st else st
  pmWriteEpilogue n (pmFromJSONMembers n st0 mem replace)

/-! ## Download provider (`DownloadProvider.cpp`) -/

/-- The abort/concurrency state of a `CURLProvider` instance: the two abort
flags and the active-operation counter. -/
structure DPState where
  abortFlag : Bool
  abortPersistsFlag : Bool
  operationInstances : Nat
deriving DecidableEq, Repr

/-- A freshly constructed provider. -/
def dpFresh : DPState := ⟨false, false, 0⟩

/-- `__curl_xferinfo`: the cooperative abort checkpoint.  When the abort
flag is set it is reloaded from the persist flag and the transfer is told
to stop (`false`); otherwise the transfer continues (`true`). -/
def dpXferinfo (s : DPState) : DPState × Bool :=
  if s.abortFlag then ({ s with abortFlag := s.abortPersistsFlag }, false)
  else (s, true)

/-- `CURLProvider::abort`: only when an operation is in flight, set the
abort flag and clear the persist flag. -/
def dpAbort (s : DPState) : DPState :=
  if s.operationInstances > 0 then
    { s with abortFlag := true, abortPersistsFlag := false }
  else s

/-- `CURLProvider::abortAll`: set both flags unconditionally. -/
def dpAbortAll (s : DPState) : DPState :=
  { s with abortFlag := true, abortPersistsFlag := true }

/-- The `operationInstances++` at the top of `downloadFile`. -/
def dpStartOp (s : DPState) : DPState :=
  { s with operationInstances := s.operationInstances + 1 }

/-- The `operationInstances--` on each exit path of `downloadFile`. -/
def dpEndOp (s : DPState) : DPState :=
  { s with operationInstances := s.operationInstances - 1 }

/-- Result codes of `downloadFile` (`HVE_OK` / `HVE_IO_ERROR`). -/
inductive DlResult where
  | ok : DlResult
  | ioError : DlResult
deriving DecidableEq, Repr

/-- Modelled from the spec: `curl_easy_perform`'s cooperative polling
(§5: the abort flag is polled at the transport layer's periodic progress
checkpoint).  The `__curl_xferinfo` callback is invoked before each of the
`chunks` data chunks, and at least once per transfer even when there is no
data.  Returns the state, the number of chunks delivered, and whether the
transfer completed (`false` = aborted by the callback,
`CURLE_ABORTED_BY_CALLBACK`). -/
def dpPerform (s : DPState) : Nat → DPState × Nat × Bool
  | 0 =>
    let r := dpXferinfo s
    (r.1, 0, r.2)
  | chunks + 1 =>
    let r := dpXferinfo s
    if r.2 then
      let rec2 := dpPerform r.1 chunks
      (rec2.1, rec2.2.1 + 1, rec2.2.2)
    else (r.1, 0, false)

/-- `CURLProvider::downloadFile`: bump the operation counter, open the
destination stream (`streamOk` models whether the `ofstream` open
succeeds), run the transfer, drop the counter, and map the outcome to
`HVE_OK`/`HVE_IO_ERROR`.  Also returns the number of data chunks written
to the destination. -/
def dpDownloadFile (s : DPState) (streamOk : Bool) (chunks : Nat) :
    DPState × DlResult × Nat :=
  let s0 := dpStartOp s
  if !streamOk then (dpEndOp s0, .ioError, 0)
  else
    let r := dpPerform s0 chunks
    (dpEndOp r.1, if r.2.2 then .ok else .ioError, r.2.1)

/-! ## `HVSession` constructor (`Hypervisor.h`) -/

/-- Modelled from the spec: `BOOST_PP_STRINGIZE(DEFAULT_API_PORT)` — the
macro lives in `Config.h`, which is not under `src/`.  The preservation
claim does not depend on its value. -/
def DEFAULT_API_PORT_STR : String := "80"

/-- Modelled from the spec: `DEFAULT_CERNVM_VERSION` from `Config.h`, which
is not under `src/`.  The preservation claim does not depend on its value. -/
def DEFAULT_CERNVM_VERSION : String := "latest"

/-- The `(key, value)` pairs the `HVSession` constructor passes to
`parameters->setDefault`, in source order. -/
def hvSessionDefaults : List (PMKey × String) :=
  [("initialized".toList, "0"),
   ("cpus".toList, "1"),
   ("memory".toList, "512"),
   ("disk".toList, "1024"),
   ("executionCap".toList, "100"),
   ("apiPort".toList, DEFAULT_API_PORT_STR),
   ("flags".toList, "0"),
   ("daemonControlled".toList, "0"),
   ("daemonMinCap".toList, "0"),
   ("daemonMaxCap".toList, "0"),
   ("daemonFlags".toList, "0"),
   ("uuid".toList, ""),
   ("ip".toList, ""),
   ("secret".toList, ""),
   ("name".toList, ""),
   ("diskURL".toList, ""),
   ("diskChecksum".toList, ""),
   ("cernvmVersion".toList, DEFAULT_CERNVM_VERSION)]

/-- The store mutations the `HVSession` constructor performs on the
parameter map it is handed: one `setDefault` per entry of
`hvSessionDefaults` (the constructor's other steps — `subgroup` creation
and `get`/`getNum` reads — do not write to the store). -/
def hvSessionInit (n : PMNode) (st : PMStore) : PMStore :=
  hvSessionDefaults.foldl (fun acc kv => pmSetDefault n acc kv.1 kv.2) st

/-- A write operation of the kinds claim C5 ranges over (`set`, `setNum`,
`setBool`). -/
inductive PMWriteOp where
  | wset : PMKey → String → PMWriteOp
  | wnum : PMKey → Int → PMWriteOp
  | wbool : PMKey → Bool → PMWriteOp

/-- Apply one write operation to a node/store pair. -/
def pmApplyWrite (ns : PMNode × PMStore) (w : PMWriteOp) : PMNode × PMStore :=
  match w with
  | .wset k v => pmSet ns.1 ns.2 k v
  | .wnum k x => pmSetNum ns.1 ns.2 k x
  | .wbool k b => pmSetBool ns.1 ns.2 k b

/-- The key a write operation stores under. -/
def pmWriteKey : PMWriteOp → PMKey
  | .wset k _ => k
  | .wnum k _ => k
  | .wbool k _ => k

/-- The string value a write operation stores (`ntos` for `setNum`, the
`y`/`n` encoding for `setBool`). -/
def pmWriteValue : PMWriteOp → String
  | .wset _ v => v
  | .wnum _ x => toString x
  | .wbool _ b => if b then "y" else "n"

/-! # Theorems -/

/-! ## Helper lemmas: 2048-byte alignment -/

lemma alignUp2048_mod (x : Nat) : alignUp2048 x % 2048 = 0 := by
  unfold alignUp2048
  split
  · assumption
  · exact Nat.mul_mod_left _ _

lemma le_alignUp2048 (x : Nat) : x ≤ alignUp2048 x := by
  unfold alignUp2048
  split
  · exact Nat.le_refl x
  · have h := Nat.div_add_mod x 2048
    have h2 : x % 2048 < 2048 := Nat.mod_lt _ (by norm_num)
    omega

lemma alignUp2048_lt (x : Nat) : alignUp2048 x < x + 2048 := by
  unfold alignUp2048
  split
  · omega
  · have h := Nat.div_add_mod x 2048
    have h2 : x % 2048 < 2048 := Nat.mod_lt _ (by norm_num)
    omega

/-! ## Claim C1 — capacity / truncation of the builders -/

set_option maxRecDepth 100000 in
/-- C1.  The claim states that `build_ami_ci_cdrom` truncates oversized
content so that no content write lands past the 358,400-byte buffer.  The
code does not: only the `volume_space_size` field uses the capped
`lDataSize`, while the content `memcpy` calls use the raw sizes.  At
`contentSize = 300000` the convention-A user-data write alone ends at byte
361,440 and the relocated convention-B writes start past the buffer end,
so the write list is not within capacity (first conjunct, refuting the
claim on `build_ami_ci_cdrom`).  The second conjunct verifies the part of
the claim that does hold: `build_simple_cdrom` copies at most
`CONTEXTISO_CDROM_SIZE - CONTENTS_OFFSET` bytes, which always fits. -/
theorem contextiso_ami_content_write_overflow :
    ¬ writesWithinCapacity (amiContentWrites 300000) CONTEXTISO_CDROM_SIZE ∧
    ∀ size : Nat, CONTENTS_OFFSET + simpleLDataSize size ≤ CONTEXTISO_CDROM_SIZE := by
  constructor
  · decide
  · intro size
    unfold simpleLDataSize CONTENTS_OFFSET CONTEXTISO_CDROM_SIZE
    split <;> omega

/-! ## Claim C2 — convention-B relocation -/

/-- C2.  When the convention-A user-data end reaches the default
convention-B metadata offset, `build_ami_ci_cdrom` relocates convention B:
the new metadata offset is the next 2048-byte boundary strictly past A's
user data, the new user-data offset is the next 2048-byte boundary strictly
past B's metadata, both are sector-aligned, B's regions sit entirely after
A's user-data region, and the two directory-record extent fields receive
exactly the offsets divided by 2048 (in the dual-endian `isosetl`
encoding).  Otherwise the fixed defaults 0xF800/0x10000 are used and the
extent fields keep their template values (`amiExtentPatch` is `none`). -/
theorem contextiso_os_relocation_correct (c : Nat) :
    (amiRelocates c →
      (amiOsOffsets c).1 % 2048 = 0 ∧
      (amiOsOffsets c).2 % 2048 = 0 ∧
      EC_USER_CONTENT_OFFSET + c < (amiOsOffsets c).1 ∧
      (amiOsOffsets c).1 ≤ EC_USER_CONTENT_OFFSET + c + 2048 ∧
      (amiOsOffsets c).1 + metaDataContentSize < (amiOsOffsets c).2 ∧
      (amiOsOffsets c).2 ≤ (amiOsOffsets c).1 + metaDataContentSize + 2048 ∧
      amiExtentPatch c =
        some (isosetl ((amiOsOffsets c).1 / 2048), isosetl ((amiOsOffsets c).2 / 2048))) ∧
    (¬ amiRelocates c →
      amiOsOffsets c = (OS_META_CONTENT_OFFSET, OS_USER_CONTENT_OFFSET) ∧
      amiExtentPatch c = none) := by
  constructor
  · intro h
    have ho : amiOsOffsets c =
        (alignUp2048 (EC_USER_CONTENT_OFFSET + c + 1),
         alignUp2048 (alignUp2048 (EC_USER_CONTENT_OFFSET + c + 1) + metaDataContentSize + 1)) := by
      unfold amiOsOffsets
      rw [if_pos h]
    have hm1 := alignUp2048_mod (EC_USER_CONTENT_OFFSET + c + 1)
    have hm2 := alignUp2048_mod
      (alignUp2048 (EC_USER_CONTENT_OFFSET + c + 1) + metaDataContentSize + 1)
    have hl1 := le_alignUp2048 (EC_USER_CONTENT_OFFSET + c + 1)
    have hl2 := le_alignUp2048
      (alignUp2048 (EC_USER_CONTENT_OFFSET + c + 1) + metaDataContentSize + 1)
    have hu1 := alignUp2048_lt (EC_USER_CONTENT_OFFSET + c + 1)
    have hu2 := alignUp2048_lt
      (alignUp2048 (EC_USER_CONTENT_OFFSET + c + 1) + metaDataContentSize + 1)
    rw [ho]
    dsimp only
    refine ⟨hm1, hm2, by omega, by omega, by omega, by omega, ?_⟩
    unfold amiExtentPatch
    rw [if_pos h, ho]
  · intro h
    constructor
    · unfold amiOsOffsets
      rw [if_neg h]
    · unfold amiExtentPatch
      rw [if_neg h]

/-- Witness for C2: a 3000-byte payload triggers the relocation
(`0xF000 + 3000 ≥ 0xF800`) and the relocated metadata offset is
sector-aligned; a 0-byte payload leaves the default offsets. -/
theorem contextiso_os_relocation_correct_witness :
    (amiOsOffsets 3000).1 % 2048 = 0 ∧
    amiOsOffsets 0 = (OS_META_CONTENT_OFFSET, OS_USER_CONTENT_OFFSET) :=
  ⟨((contextiso_os_relocation_correct 3000).1 (by decide)).1,
   ((contextiso_os_relocation_correct 0).2 (by decide)).1⟩

/-! ## Claim C9 — the date field of the primary volume descriptor -/

/-- C9.  The claim says the MM field of the 17-character date string equals
the current UTC calendar month (1–12).  The `sprintf` call passes `tm_mon`
without adding 1, so the MM field holds month − 1: for the UTC instant
2013-06-15 12:00:00 (June), the builders produce `"20130515120000000"`,
whose month field is `"05"`, not the `"06"` the `%02u` conversion of the
calendar month would give.  (The year, day, hour, minute and second fields
and the 17-character shape are as claimed.) -/
theorem contextiso_date_month_field_off_by_one :
    buildDateNow (gmtimeOf 2013 6 15 12 0 0) = "20130515120000000" ∧
    (buildDateNow (gmtimeOf 2013 6 15 12 0 0)).length = 17 ∧
    dateMonthField (buildDateNow (gmtimeOf 2013 6 15 12 0 0)) = ['0', '5'] ∧
    fmtPad 2 6 = "06" ∧
    dateMonthField (buildDateNow (gmtimeOf 2013 6 15 12 0 0)) ≠ "06".toList := by
  refine ⟨by decide, by decide, by decide, by decide, by decide⟩

/-! ## Helper lemmas: the flat map -/

lemma findV_putOnMap_self (m : List (PMKey × String)) (k : PMKey) (v : String) :
    findV (putOnMap m k v) k = some v := by
  induction m with
  | nil => simp [putOnMap, findV]
  | cons hd t ih =>
    obtain ⟨k0, v0⟩ := hd
    by_cases h : k0 = k
    · simp [putOnMap, h, findV]
    · simp [putOnMap, h, findV, ih]

lemma putOnMap_absent (m : List (PMKey × String)) (k : PMKey) (v : String)
    (h : findV m k = none) : putOnMap m k v = m ++ [(k, v)] := by
  induction m with
  | nil => simp [putOnMap]
  | cons hd t ih =>
    obtain ⟨k0, v0⟩ := hd
    by_cases h0 : k0 = k
    · simp [findV, h0] at h
    · simp [findV, h0] at h
      simp [putOnMap, h0, ih h]

lemma findV_append_left {m1 : List (PMKey × String)} {k : PMKey} {v : String}
    (m2 : List (PMKey × String)) (h : findV m1 k = some v) :
    findV (m1 ++ m2) k = some v := by
  induction m1 with
  | nil => simp [findV] at h
  | cons hd t ih =>
    obtain ⟨k0, v0⟩ := hd
    by_cases h0 : k0 = k
    · simp [findV, h0] at h ⊢
      exact h
    · simp [findV, h0] at h ⊢
      exact ih h

lemma findV_append_none {m1 : List (PMKey × String)} {k : PMKey}
    (m2 : List (PMKey × String)) (h : findV m1 k = none) :
    findV (m1 ++ m2) k = findV m2 k := by
  induction m1 with
  | nil => simp
  | cons hd t ih =>
    obtain ⟨k0, v0⟩ := hd
    by_cases h0 : k0 = k
    · simp [findV, h0] at h
    · simp [findV, h0] at h ⊢
      exact ih h

lemma findV_insertIfAbsent_of_some {m : List (PMKey × String)} {k : PMKey}
    {v : String} (k' : PMKey) (v' : String) (h : findV m k = some v) :
    findV (insertIfAbsent m k' v') k = some v := by
  unfold insertIfAbsent
  cases h' : findV m k' with
  | some w => simp [h', h]
  | none =>
    have hne : k ≠ k' := fun he => by rw [he, h'] at h; exact Option.noConfusion h
    simp only [h', Option.isSome_none, Bool.false_eq_true, if_false]
    rw [putOnMap_absent m k' v' h']
    rw [findV_append_left _ h]

lemma pmWriteEpilogue_params (n : PMNode) (st : PMStore) :
    (pmWriteEpilogue n st).2.params = st.params := by
  unfold pmWriteEpilogue pmCommit
  split <;> rfl

lemma pmWriteEpilogue_pfx (n : PMNode) (st : PMStore) :
    (pmWriteEpilogue n st).1.pfx = n.pfx := by
  unfold pmWriteEpilogue
  split <;> rfl

lemma pmContains_eq_isSome (n : PMNode) (st : PMStore) (k : PMKey) :
    pmContains n st k false = (findV st.params (n.pfx ++ k)).isSome := by
  unfold pmContains
  cases findV st.params (n.pfx ++ k) <;> simp

/-! ## Claim C7 — set / setDefault / get algebra -/

/-- C7.  After `set(k, v)` a (non-strict) `get(k)` on the same node returns
`v` whether or not the key existed; after `setDefault(k, w)`, `get(k)`
returns the previously stored value when the key already existed
(`contains` true) and returns `w` exactly when it was absent. -/
theorem parameterMap_set_get_setDefault (n : PMNode) (st : PMStore)
    (k : PMKey) (v w d : String) :
    pmGet (pmSet n st k v).1 (pmSet n st k v).2 k d false = v ∧
    (pmContains n st k false = true →
      pmGet n (pmSetDefault n st k w) k d false = pmGet n st k d false) ∧
    (pmContains n st k false = false →
      pmGet n (pmSetDefault n st k w) k d false = w) := by
  refine ⟨?_, ?_, ?_⟩
  · unfold pmSet pmGet
    rw [pmWriteEpilogue_pfx, pmWriteEpilogue_params]
    simp [findV_putOnMap_self]
  · intro h
    rw [pmContains_eq_isSome] at h
    obtain ⟨v0, hv0⟩ := Option.isSome_iff_exists.mp h
    unfold pmGet pmSetDefault
    simp only [Bool.false_eq_true, if_false]
    rw [findV_insertIfAbsent_of_some _ _ hv0, hv0]
  · intro h
    rw [pmContains_eq_isSome] at h
    have hnone : findV st.params (n.pfx ++ k) = none := by
      cases hx : findV st.params (n.pfx ++ k)
      · rfl
      · rw [hx] at h
        simp at h
    unfold pmGet pmSetDefault insertIfAbsent
    simp only [Bool.false_eq_true, if_false, hnone, Option.isSome_none]
    simp [findV_putOnMap_self]

/-- Witness for C7 at a root node holding `a ↦ 1`: `set` overwrites to `2`,
`setDefault` on the existing key `a` keeps `1`, and `setDefault` on the
absent key `b` stores `9`. -/
theorem parameterMap_set_get_setDefault_witness :
    pmGet (pmSet ⟨[], false, false⟩ ⟨[("a".toList, "1")], 0⟩ "a".toList "2").1
        (pmSet ⟨[], false, false⟩ ⟨[("a".toList, "1")], 0⟩ "a".toList "2").2
        "a".toList "" false = "2" ∧
    pmGet ⟨[], false, false⟩
        (pmSetDefault ⟨[], false, false⟩ ⟨[("a".toList, "1")], 0⟩ "a".toList "9")
        "a".toList "" false =
      pmGet ⟨[], false, false⟩ ⟨[("a".toList, "1")], 0⟩ "a".toList "" false ∧
    pmGet ⟨[], false, false⟩
        (pmSetDefault ⟨[], false, false⟩ ⟨[("a".toList, "1")], 0⟩ "b".toList "9")
        "b".toList "" false = "9" :=
  ⟨(parameterMap_set_get_setDefault ⟨[], false, false⟩ ⟨[("a".toList, "1")], 0⟩
      "a".toList "2" "9" "").1,
   (parameterMap_set_get_setDefault ⟨[], false, false⟩ ⟨[("a".toList, "1")], 0⟩
      "a".toList "2" "9" "").2.1 (by decide),
   (parameterMap_set_get_setDefault ⟨[], false, false⟩ ⟨[("a".toList, "1")], 0⟩
      "b".toList "2" "9" "").2.2 (by decide)⟩

/-! ## Claim C5 — lock / unlock batching -/

lemma pmApplyWrite_locked (ws : List PMWriteOp) :
    ∀ (n : PMNode) (st : PMStore), n.locked = true →
      (ws.foldl pmApplyWrite (n, st)).1.locked = true ∧
      (ws.foldl pmApplyWrite (n, st)).1.pfx = n.pfx ∧
      (ws.foldl pmApplyWrite (n, st)).1.changed = (n.changed || !ws.isEmpty) ∧
      (ws.foldl pmApplyWrite (n, st)).2.commits = st.commits ∧
      (ws.foldl pmApplyWrite (n, st)).2.params =
        ws.foldl (fun ps w => putOnMap ps (n.pfx ++ pmWriteKey w) (pmWriteValue w))
          st.params := by
  induction ws with
  | nil => intro n st h; simp [h]
  | cons w t ih =>
    intro n st h
    have hstep : pmApplyWrite (n, st) w =
        ({ n with changed := true },
         { st with params := putOnMap st.params (n.pfx ++ pmWriteKey w) (pmWriteValue w) }) := by
      cases w <;>
        simp [pmApplyWrite, pmSet, pmSetNum, pmSetBool, pmWriteEpilogue, h,
          pmWriteKey, pmWriteValue]
    have ih' := ih { n with changed := true }
      { st with params := putOnMap st.params (n.pfx ++ pmWriteKey w) (pmWriteValue w) }
      (by simpa using h)
    simp only [List.foldl_cons, hstep]
    refine ⟨ih'.1, ih'.2.1, ?_, ih'.2.2.2.1, ih'.2.2.2.2⟩
    rw [ih'.2.2.1]
    simp

/-- C5.  `lock()`, then any sequence of `set`/`setNum`/`setBool` writes,
then `unlock()`, bumps the commit counter by exactly one when at least one
write was performed and by zero when none was; and the in-memory map after
the locked writes is exactly the sequence of `putOnMap` stores — each write
mutates the shared map immediately, only the commit is deferred. -/
theorem parameterMap_lock_unlock_batching (n : PMNode) (st : PMStore)
    (ws : List PMWriteOp) :
    (pmUnlock (ws.foldl pmApplyWrite (pmLock n, st)).1
        (ws.foldl pmApplyWrite (pmLock n, st)).2).2.commits =
      st.commits + (if ws.isEmpty then 0 else 1) ∧
    (ws.foldl pmApplyWrite (pmLock n, st)).2.params =
      ws.foldl (fun ps w => putOnMap ps (n.pfx ++ pmWriteKey w) (pmWriteValue w))
        st.params := by
  have h := pmApplyWrite_locked ws (pmLock n) st (by simp [pmLock])
  refine ⟨?_, by simpa [pmLock] using h.2.2.2.2⟩
  unfold pmUnlock pmCommit
  rw [h.2.2.1]
  have hc : (pmLock n).changed = false := rfl
  rw [hc]
  cases hw : ws.isEmpty <;> simp [hw, h.2.2.2.1]

/-! ## Claim C6 — commit discipline of the mutating operations -/

lemma pmFromJSONMembers_commits_mono :
    ∀ (n : PMNode) (st : PMStore) (mem : JMembers) (rep : Bool),
      st.commits ≤ (pmFromJSONMembers n st mem rep).commits
  | _, _, .jnil, _ => Nat.le_refl _
  | n, st, .jcons k v rest, rep => by
    cases v with
    | jobj mem2 =>
      have hin := pmFromJSONMembers_commits_mono (pmSubgroup n k) st mem2 true
      have hrest := pmFromJSONMembers_commits_mono n
        (pmCommit (pmFromJSONMembers (pmSubgroup n k) st mem2 true)) rest rep
      simp only [pmFromJSONMembers]
      exact le_trans (hin.trans (Nat.le_succ _)) hrest
    | jstr s =>
      simp only [pmFromJSONMembers]
      split
      · exact pmFromJSONMembers_commits_mono n
          { st with params := putOnMap st.params k s } rest rep
      · exact pmFromJSONMembers_commits_mono n st rest rep
    | jint i =>
      simp only [pmFromJSONMembers]
      split
      · exact pmFromJSONMembers_commits_mono n
          { st with params := putOnMap st.params k (toString i) } rest rep
      · exact pmFromJSONMembers_commits_mono n st rest rep
    | jother =>
      simp only [pmFromJSONMembers]
      exact pmFromJSONMembers_commits_mono n st rest rep

lemma pmClear_commits (n : PMNode) (st : PMStore) :
    (pmClear n st).commits = st.commits := rfl

/-- C6 counterexample.  At a root node that is not locked, `erase` of an
existing key mutates the map (the key is removed) yet leaves the commit
counter untouched — `ParameterMap::erase` contains no `commitChanges`
call, refuting "every mutating operation … triggers a commitChanges call
before returning" at this input. -/
theorem parameterMap_erase_no_commit_cex :
    (pmErase ⟨[], false, false⟩ ⟨[("a".toList, "1")], 0⟩ "a".toList).params ≠
      [("a".toList, "1")] ∧
    (pmErase ⟨[], false, false⟩ ⟨[("a".toList, "1")], 0⟩ "a".toList).commits = 0 := by
  constructor
  · decide
  · rfl

/-- C6 as amended.  On an unlocked node: `set`, `setNum`, `setBool`,
`fromMap`, `fromParameters` commit exactly once before returning;
`fromJSON` commits at least once (once for the call itself plus once per
object-valued member it recurses into); `filterParameter` commits exactly
when it actually strips characters from a stored value; and `setDefault`
and `erase` never commit. -/
theorem parameterMap_unlocked_commit_discipline (n : PMNode) (st : PMStore)
    (k : PMKey) (v : String) (x : Int) (b : Bool) (m : List (PMKey × String))
    (src : PMNode) (srcStore : PMStore) (mem : JMembers) (cb rep : Bool)
    (h : n.locked = false) :
    (pmSet n st k v).2.commits = st.commits + 1 ∧
    (pmSetNum n st k x).2.commits = st.commits + 1 ∧
    (pmSetBool n st k b).2.commits = st.commits + 1 ∧
    (pmFromMap n st m cb rep).2.commits = st.commits + 1 ∧
    (pmFromParameters n st src srcStore cb rep).2.commits = st.commits + 1 ∧
    st.commits + 1 ≤ (pmFromJSONVal n st mem cb rep).2.commits ∧
    (pmSetDefault n st k v).commits = st.commits ∧
    (pmErase n st k).commits = st.commits ∧
    (pmFilterParameter n st k).1.2.commits =
      st.commits + (if pmFilterModifies n st k then 1 else 0) := by
  refine ⟨?_, ?_, ?_, ?_, ?_, ?_, rfl, rfl, ?_⟩
  · simp [pmSet, pmWriteEpilogue, h, pmCommit]
  · simp [pmSetNum, pmSet, pmWriteEpilogue, h, pmCommit]
  · simp [pmSetBool, pmSet, pmWriteEpilogue, h, pmCommit]
  · unfold pmFromMap pmWriteEpilogue
    rw [h]
    cases cb <;> simp [pmCommit, pmClear]
  · unfold pmFromParameters pmWriteEpilogue
    rw [h]
    cases cb <;> simp [pmCommit, pmClear]
  · unfold pmFromJSONVal pmWriteEpilogue
    rw [h]
    cases cb
    · simpa [pmCommit] using
        pmFromJSONMembers_commits_mono n st mem rep
    · simpa [pmCommit, pmClear] using
        pmFromJSONMembers_commits_mono n (pmClear n st) mem rep
  · unfold pmFilterParameter
    by_cases hc : pmContains n st k false = true
    · rw [if_pos hc]
      by_cases ha :
          ((pmGet n st k "" false).toList.any fun c => !SAFE_KEY_CHARS.contains c) = true
      · rw [if_pos ha]
        have hmod : pmFilterModifies n st k = true := by
          unfold pmFilterModifies
          rw [hc, ha]
          rfl
        rw [hmod]
        simp [pmWriteEpilogue, h, pmCommit]
      · rw [if_neg ha]
        have hmod : pmFilterModifies n st k = false := by
          unfold pmFilterModifies
          rw [hc]
          simpa using ha
        rw [hmod]
        simp
    · rw [if_neg hc]
      have hmod : pmFilterModifies n st k = false := by
        unfold pmFilterModifies
        simp only [Bool.not_eq_true] at hc
        rw [hc]
        simp
      rw [hmod]
      simp

/-- Witness for C6 at an unlocked root node holding `a ↦ 1`: `set` commits
once, `fromJSON` of an empty object commits once, `setDefault` and `erase`
commit nothing. -/
theorem parameterMap_unlocked_commit_discipline_witness :
    (pmSet ⟨[], false, false⟩ ⟨[("a".toList, "1")], 0⟩ "a".toList "2").2.commits = 1 ∧
    1 ≤ (pmFromJSONVal ⟨[], false, false⟩ ⟨[("a".toList, "1")], 0⟩ .jnil false true).2.commits ∧
    (pmSetDefault ⟨[], false, false⟩ ⟨[("a".toList, "1")], 0⟩ "a".toList "2").commits = 0 ∧
    (pmErase ⟨[], false, false⟩ ⟨[("a".toList, "1")], 0⟩ "a".toList).commits = 0 :=
  ⟨(parameterMap_unlocked_commit_discipline ⟨[], false, false⟩ ⟨[("a".toList, "1")], 0⟩
      "a".toList "2" 5 true [] ⟨[], false, false⟩ ⟨[], 0⟩ .jnil false true rfl).1,
   (parameterMap_unlocked_commit_discipline ⟨[], false, false⟩ ⟨[("a".toList, "1")], 0⟩
      "a".toList "2" 5 true [] ⟨[], false, false⟩ ⟨[], 0⟩ .jnil false true rfl).2.2.2.2.2.1,
   (parameterMap_unlocked_commit_discipline ⟨[], false, false⟩ ⟨[("a".toList, "1")], 0⟩
      "a".toList "2" 5 true [] ⟨[], false, false⟩ ⟨[], 0⟩ .jnil false true rfl).2.2.2.2.2.2.1,
   (parameterMap_unlocked_commit_discipline ⟨[], false, false⟩ ⟨[("a".toList, "1")], 0⟩
      "a".toList "2" 5 true [] ⟨[], false, false⟩ ⟨[], 0⟩ .jnil false true rfl).2.2.2.2.2.2.2.1⟩

/-! ## Claim C3 — where `fromJSON` stores scalar members -/

/-- C3.  The claim says `fromJSON` stores each string/integer member as a
leaf visible at the importing node, i.e. under `prefix + member name`.  The
code stores it under the bare member name — `fromJSON` is the one importer
that omits the `prefix +` prepend.  On a node with prefix `g/` importing
the object with the single string member `x ↦ hello`, the resulting flat
map holds the key `x` (not `g/x`), a `get("x")` at the node yields the
default, not `hello`, and nothing is stored under `g/x`.  By contrast
`fromMap` of the same pair at the same node does make the value visible at
the node — the divergence is specific to `fromJSON`. -/
theorem parameterMap_fromJSON_stores_bare_key :
    (pmFromJSONVal ⟨"g/".toList, false, false⟩ pmFreshStore
        (.jcons "x".toList (.jstr "hello") .jnil) false true).2.params =
      [("x".toList, "hello")] ∧
    pmGet ⟨"g/".toList, false, false⟩
        (pmFromJSONVal ⟨"g/".toList, false, false⟩ pmFreshStore
          (.jcons "x".toList (.jstr "hello") .jnil) false true).2
        "x".toList "MISSING" false = "MISSING" ∧
    findV (pmFromJSONVal ⟨"g/".toList, false, false⟩ pmFreshStore
        (.jcons "x".toList (.jstr "hello") .jnil) false true).2.params
      "g/x".toList = none ∧
    pmGet ⟨"g/".toList, false, false⟩
        (pmFromMap ⟨"g/".toList, false, false⟩ pmFreshStore
          [("x".toList, "hello")] false true).2
        "x".toList "MISSING" false = "hello" := by
  refine ⟨by decide, by decide, by decide, by decide⟩

/-! ## Claim C10 — the `HVSession` constructor only inserts defaults -/

lemma findV_pmSetDefault_of_some {st : PMStore} {k : PMKey} {v : String}
    (n : PMNode) (k' : PMKey) (v' : String) (h : findV st.params k = some v) :
    findV (pmSetDefault n st k' v').params k = some v := by
  unfold pmSetDefault
  exact findV_insertIfAbsent_of_some _ _ h

/-- C10.  The `HVSession` constructor performs only `setDefault` calls on
the parameter map it is handed, so every key already present keeps its
stored value — a session resumed from persisted state keeps its
configuration unchanged. -/
theorem hvSession_ctor_preserves_existing_params (n : PMNode) (st : PMStore)
    (k : PMKey) (v : String) (h : findV st.params k = some v) :
    findV (hvSessionInit n st).params k = some v := by
  unfold hvSessionInit
  generalize hvSessionDefaults = l
  induction l generalizing st with
  | nil => exact h
  | cons hd t ih =>
    simp only [List.foldl_cons]
    exact ih _ (findV_pmSetDefault_of_some n hd.1 hd.2 h)

/-- Witness for C10: a map holding `cpus ↦ 4` still holds `cpus ↦ 4` after
the constructor's default seeding. -/
theorem hvSession_ctor_preserves_existing_params_witness :
    findV (hvSessionInit ⟨[], false, false⟩ ⟨[("cpus".toList, "4")], 0⟩).params
      "cpus".toList = some "4" :=
  hvSession_ctor_preserves_existing_params ⟨[], false, false⟩
    ⟨[("cpus".toList, "4")], 0⟩ "cpus".toList "4" (by decide)

/-! ## Claim C8 — toMap / fromMap round trip -/

lemma pmEnumKeys_eq_of_params (n : PMNode) {st st' : PMStore}
    (h : st.params = st'.params) : pmEnumKeys n st = pmEnumKeys n st' := by
  unfold pmEnumKeys
  rw [h]

lemma pmEnumKeys_nodup (n : PMNode) (st : PMStore)
    (hnd : (st.params.map Prod.fst).Nodup) : (pmEnumKeys n st).Nodup := by
  unfold pmEnumKeys
  refine List.Nodup.map_on ?_ (hnd.filter _)
  intro k1 h1 k2 h2 hdrop
  have hc1 := (List.mem_filter.mp h1).2
  have hc2 := (List.mem_filter.mp h2).2
  have ht1 : k1.take n.pfx.length = n.pfx := by
    simpa using (Bool.and_elim_left hc1)
  have ht2 : k2.take n.pfx.length = n.pfx := by
    simpa using (Bool.and_elim_left hc2)
  calc k1 = k1.take n.pfx.length ++ k1.drop n.pfx.length :=
        (List.take_append_drop _ _).symm
    _ = k2.take n.pfx.length ++ k2.drop n.pfx.length := by rw [ht1, ht2, hdrop]
    _ = k2 := List.take_append_drop _ _

lemma mem_pmEnumKeys (n : PMNode) (st : PMStore) {k : PMKey}
    (h : k ∈ pmEnumKeys n st) :
    (n.pfx ++ k) ∈ st.params.map Prod.fst ∧ ¬ PMAP_GROUP_SEPARATOR ∈ k := by
  unfold pmEnumKeys at h
  obtain ⟨k0, hk0, hdrop⟩ := List.mem_map.mp h
  have hmem := (List.mem_filter.mp hk0).1
  have hcond := (List.mem_filter.mp hk0).2
  have ht : k0.take n.pfx.length = n.pfx := by
    simpa using (Bool.and_elim_left hcond)
  have hsep : ¬ PMAP_GROUP_SEPARATOR ∈ k0.drop n.pfx.length := by
    have := Bool.and_elim_right hcond
    simp only [Bool.not_eq_true'] at this
    simpa using this
  have hk0eq : k0 = n.pfx ++ k := by
    calc k0 = k0.take n.pfx.length ++ k0.drop n.pfx.length :=
          (List.take_append_drop _ _).symm
      _ = n.pfx ++ k := by rw [ht, hdrop]
  constructor
  · rw [← hk0eq]
    exact hmem
  · rw [← hdrop]
    exact hsep

lemma findV_isSome_of_mem_keys {m : List (PMKey × String)} {k : PMKey}
    (h : k ∈ m.map Prod.fst) : (findV m k).isSome := by
  induction m with
  | nil => simp at h
  | cons hd t ih =>
    obtain ⟨k0, v0⟩ := hd
    by_cases h0 : k0 = k
    · simp [findV, h0]
    · simp only [List.map_cons, List.mem_cons] at h
      rcases h with h | h
      · exact absurd h.symm h0
      · simp [findV, h0, ih h]

lemma foldl_insertIfAbsent_fresh (g : PMKey → String) :
    ∀ (ks : List PMKey) (acc : List (PMKey × String)), ks.Nodup →
      (∀ k ∈ ks, findV acc k = none) →
      ks.foldl (fun a k => insertIfAbsent a k (g k)) acc =
        acc ++ ks.map (fun k => (k, g k)) := by
  intro ks
  induction ks with
  | nil => intro acc _ _; simp
  | cons k1 t ih =>
    intro acc hnd habs
    have h1 : findV acc k1 = none := habs k1 (by simp)
    have hstep : insertIfAbsent acc k1 (g k1) = acc ++ [(k1, g k1)] := by
      unfold insertIfAbsent
      rw [h1]
      simpa using putOnMap_absent acc k1 (g k1) h1
    simp only [List.foldl_cons, hstep]
    rw [ih (acc ++ [(k1, g k1)]) hnd.of_cons ?_]
    · simp
    · intro k hk
      have hne : k1 ≠ k := by
        intro he
        exact (List.nodup_cons.mp hnd).1 (he ▸ hk)
      rw [findV_append_none _ (habs k (by simp [hk]))]
      simp [findV, hne]

lemma foldl_putOnMap_prefixed (p : PMKey) :
    ∀ (kvs acc : List (PMKey × String)), (kvs.map Prod.fst).Nodup →
      (∀ kv ∈ kvs, findV acc (p ++ kv.1) = none) →
      kvs.foldl (fun ps kv => putOnMap ps (p ++ kv.1) kv.2) acc =
        acc ++ kvs.map (fun kv => (p ++ kv.1, kv.2)) := by
  intro kvs
  induction kvs with
  | nil => intro acc _ _; simp
  | cons kv1 t ih =>
    intro acc hnd habs
    have h1 : findV acc (p ++ kv1.1) = none := habs kv1 (by simp)
    have hstep : putOnMap acc (p ++ kv1.1) kv1.2 = acc ++ [(p ++ kv1.1, kv1.2)] :=
      putOnMap_absent _ _ _ h1
    simp only [List.foldl_cons, hstep]
    rw [ih (acc ++ [(p ++ kv1.1, kv1.2)]) (by simpa using (List.nodup_cons.mp hnd).2) ?_]
    · simp
    · intro kv hkv
      have hne : kv1.1 ≠ kv.1 := by
        intro he
        exact (List.nodup_cons.mp hnd).1
          (he ▸ List.mem_map.mpr ⟨kv, hkv, rfl⟩)
      have hne' : p ++ kv1.1 ≠ p ++ kv.1 := fun he =>
        hne (List.append_cancel_left he)
      rw [findV_append_none _ (habs kv (by simp [hkv]))]
      simp [findV, hne']

lemma pmEnumKeys_prefixed_map (p : PMKey) (ks : List PMKey) (g : PMKey → String)
    (c : Nat) (hsep : ∀ k ∈ ks, ¬ PMAP_GROUP_SEPARATOR ∈ k) :
    pmEnumKeys ⟨p, false, false⟩ ⟨ks.map (fun k => (p ++ k, g k)), c⟩ = ks := by
  unfold pmEnumKeys
  simp only [List.map_map]
  have hfst : (ks.map ((fun kv : PMKey × String => kv.1) ∘ fun k => (p ++ k, g k))) =
      ks.map (fun k => p ++ k) := by
    simp [Function.comp]
  rw [show ((Prod.fst ∘ fun k => (p ++ k, g k)) = fun k => p ++ k) from rfl]
  have hall : ∀ k ∈ ks.map (fun k => p ++ k),
      ((k.take p.length == p) && !(k.drop p.length).contains PMAP_GROUP_SEPARATOR) = true := by
    intro k hk
    obtain ⟨k0, hk0, rfl⟩ := List.mem_map.mp hk
    have h1 : (p ++ k0).take p.length = p := List.take_left p k0
    have h2 : (p ++ k0).drop p.length = k0 := List.drop_left p k0
    have h3 : k0.contains PMAP_GROUP_SEPARATOR = false := by
      simpa using hsep k0 hk0
    rw [h1, h2, h3]
    simp
  rw [List.filter_eq_self.mpr hall, List.map_map]
  have : ((fun k : PMKey => k.drop p.length) ∘ fun k => p ++ k) = fun k : PMKey => (p ++ k).drop p.length := rfl
  rw [this]
  calc ks.map (fun k : PMKey => (p ++ k).drop p.length) = ks.map id := by
        refine List.map_congr_left ?_
        intro k _
        exact List.drop_left p k
    _ = ks := List.map_id ks

lemma findV_prefixed_map (p : PMKey) (g : PMKey → String) :
    ∀ (ks : List PMKey), ks.Nodup → ∀ k ∈ ks,
      findV (ks.map fun k0 => (p ++ k0, g k0)) (p ++ k) = some (g k) := by
  intro ks
  induction ks with
  | nil => intro _ k hk; simp at hk
  | cons k1 t ih =>
    intro hnd k hk
    rcases List.mem_cons.mp hk with h | h
    · subst h
      simp [findV]
    · have hne : k1 ≠ k := fun he => (List.nodup_cons.mp hnd).1 (he ▸ h)
      have hne' : p ++ k1 ≠ p ++ k := fun he => hne (List.append_cancel_left he)
      simp only [List.map_cons, findV, hne', if_false]
      exact ih hnd.of_cons k h

/-- C8.  Exporting a node's visible keys with `toMap` and re-importing the
result with `fromMap(replace = true)` into a fresh node with the same
prefix reproduces the identical visible key/value set: `enumKeys` of the
new node equals `enumKeys` of the original, and `get` agrees on every
visible key (for any default).  The hypothesis is the `std::map` invariant
that the original flat map has no duplicate keys. -/
theorem parameterMap_toMap_fromMap_roundtrip (n : PMNode) (st : PMStore)
    (hnd : (st.params.map Prod.fst).Nodup) :
    pmEnumKeys ⟨n.pfx, false, false⟩
        (pmFromMap ⟨n.pfx, false, false⟩ pmFreshStore (pmToMap n st [] false) false true).2 =
      pmEnumKeys n st ∧
    ∀ k ∈ pmEnumKeys n st, ∀ d : String,
      pmGet ⟨n.pfx, false, false⟩
          (pmFromMap ⟨n.pfx, false, false⟩ pmFreshStore (pmToMap n st [] false) false true).2
          k d false =
        pmGet n st k d false := by
  have hksnd : (pmEnumKeys n st).Nodup := pmEnumKeys_nodup n st hnd
  have hToMap : pmToMap n st [] false =
      (pmEnumKeys n st).map
        (fun k => (k, (findV st.params (n.pfx ++ k)).getD "")) := by
    unfold pmToMap
    have h := foldl_insertIfAbsent_fresh
      (fun k => (findV st.params (n.pfx ++ k)).getD "")
      (pmEnumKeys n st) [] hksnd (fun k _ => rfl)
    simpa using h
  have hparams : (pmFromMap ⟨n.pfx, false, false⟩ pmFreshStore
        (pmToMap n st [] false) false true).2.params =
      (pmEnumKeys n st).map
        (fun k => (n.pfx ++ k, (findV st.params (n.pfx ++ k)).getD "")) := by
    unfold pmFromMap
    rw [pmWriteEpilogue_params, hToMap]
    simp only [Bool.true_or, if_true]
    have hnod : (((pmEnumKeys n st).map
        (fun k => (k, (findV st.params (n.pfx ++ k)).getD ""))).map Prod.fst).Nodup := by
      have hid : (Prod.fst ∘ fun k : PMKey =>
          (k, (findV st.params (n.pfx ++ k)).getD "")) = id := rfl
      rw [List.map_map, hid, List.map_id]
      exact hksnd
    have h := foldl_putOnMap_prefixed n.pfx
      ((pmEnumKeys n st).map (fun k => (k, (findV st.params (n.pfx ++ k)).getD "")))
      [] hnod (fun kv _ => rfl)
    simpa [List.map_map, Function.comp] using h
  constructor
  · have h1 : pmEnumKeys ⟨n.pfx, false, false⟩
          (pmFromMap ⟨n.pfx, false, false⟩ pmFreshStore (pmToMap n st [] false) false true).2 =
        pmEnumKeys ⟨n.pfx, false, false⟩
          ⟨(pmEnumKeys n st).map
            (fun k => (n.pfx ++ k, (findV st.params (n.pfx ++ k)).getD "")), 0⟩ :=
      pmEnumKeys_eq_of_params _ (by rw [hparams])
    rw [h1, pmEnumKeys_prefixed_map n.pfx (pmEnumKeys n st)
      (fun k => (findV st.params (n.pfx ++ k)).getD "") 0
      (fun k hk => (mem_pmEnumKeys n st hk).2)]
  · intro k hk d
    obtain ⟨v, hv⟩ := Option.isSome_iff_exists.mp
      (findV_isSome_of_mem_keys (mem_pmEnumKeys n st hk).1)
    unfold pmGet
    simp only [Bool.false_eq_true, if_false]
    rw [hparams,
      findV_prefixed_map n.pfx (fun k0 => (findV st.params (n.pfx ++ k0)).getD "")
        (pmEnumKeys n st) hksnd k hk,
      hv]
    simp [hv]

/-- Witness for C8 at a node with prefix `a/` over a map holding
`a/x ↦ 1`, `b ↦ 3`, `a/y ↦ 2`, `a/s/t ↦ 4` (visible keys `x`, `y`). -/
theorem parameterMap_toMap_fromMap_roundtrip_witness :
    pmEnumKeys ⟨"a/".toList, false, false⟩
        (pmFromMap ⟨"a/".toList, false, false⟩ pmFreshStore
          (pmToMap ⟨"a/".toList, false, false⟩
            ⟨[("a/x".toList, "1"), ("b".toList, "3"), ("a/y".toList, "2"),
              ("a/s/t".toList, "4")], 0⟩ [] false)
          false true).2 =
      pmEnumKeys ⟨"a/".toList, false, false⟩
        ⟨[("a/x".toList, "1"), ("b".toList, "3"), ("a/y".toList, "2"),
          ("a/s/t".toList, "4")], 0⟩ ∧
    pmGet ⟨"a/".toList, false, false⟩
        (pmFromMap ⟨"a/".toList, false, false⟩ pmFreshStore
          (pmToMap ⟨"a/".toList, false, false⟩
            ⟨[("a/x".toList, "1"), ("b".toList, "3"), ("a/y".toList, "2"),
              ("a/s/t".toList, "4")], 0⟩ [] false)
          false true).2
        "x".toList "d" false =
      pmGet ⟨"a/".toList, false, false⟩
        ⟨[("a/x".toList, "1"), ("b".toList, "3"), ("a/y".toList, "2"),
          ("a/s/t".toList, "4")], 0⟩ "x".toList "d" false :=
  ⟨(parameterMap_toMap_fromMap_roundtrip ⟨"a/".toList, false, false⟩
      ⟨[("a/x".toList, "1"), ("b".toList, "3"), ("a/y".toList, "2"),
        ("a/s/t".toList, "4")], 0⟩ (by decide)).1,
   (parameterMap_toMap_fromMap_roundtrip ⟨"a/".toList, false, false⟩
      ⟨[("a/x".toList, "1"), ("b".toList, "3"), ("a/y".toList, "2"),
        ("a/s/t".toList, "4")], 0⟩ (by decide)).2 "x".toList (by decide) "d"⟩

/-! ## Claim C4 — abort semantics of the download provider -/

lemma dpPerform_aborted (s : DPState) (h : s.abortFlag = true) (chunks : Nat) :
    dpPerform s chunks = ({ s with abortFlag := s.abortPersistsFlag }, 0, false) := by
  cases chunks <;> simp [dpPerform, dpXferinfo, h]

lemma dpPerform_clean (s : DPState) (h : s.abortFlag = false) :
    ∀ chunks : Nat, dpPerform s chunks = (s, chunks, true) := by
  intro chunks
  induction chunks with
  | zero => simp [dpPerform, dpXferinfo, h]
  | succ c ih => simp [dpPerform, dpXferinfo, h, ih]

/-- C4 counterexample.  The claim says `abort()` "does not prevent later
transfers from proceeding".  It can: `abort()` only sets the abort flag,
which is cleared exclusively by the `__curl_xferinfo` callback of some
transfer.  In the trace below, a `downloadFile` starts (`dpStartOp`),
passes its progress checkpoint (`dpXferinfo`), then `abort()` is called
from another thread while the operation is still in flight
(`operationInstances = 1`), and the transfer completes without polling
again (`dpEndOp`).  The flag is left set, so the NEXT `downloadFile` on
the instance — with no `abortAll` ever called — fails, while the same
transfer from a fresh provider succeeds. -/
theorem downloadProvider_abort_blocks_next_transfer_cex :
    (dpDownloadFile (dpEndOp (dpAbort (dpXferinfo (dpStartOp dpFresh)).1)) true 5).2.1 =
      DlResult.ioError ∧
    (dpDownloadFile dpFresh true 5).2.1 = DlResult.ok := by
  refine ⟨by decide, by decide⟩

/-- C4 as amended.  (a) After `abortAll()` (both flags set), every
`downloadFile` on the instance fails with `HVE_IO_ERROR` at its first
abort-flag checkpoint, before any data chunk is written, and both flags
remain set afterwards — the abort is sticky.  (b) `abort()` is a no-op
when no operation is active.  (c) When only the one-shot abort flag is set
(the `abort()` case), the next `downloadFile` fails with no data written
but clears the flag, and the transfer after that proceeds to completion,
delivering all its chunks. -/
theorem downloadProvider_abort_semantics (s : DPState) (c c2 : Nat) :
    (s.abortFlag = true → s.abortPersistsFlag = true →
      (dpDownloadFile s true c).2.1 = DlResult.ioError ∧
      (dpDownloadFile s true c).2.2 = 0 ∧
      (dpDownloadFile s true c).1.abortFlag = true ∧
      (dpDownloadFile s true c).1.abortPersistsFlag = true) ∧
    (s.operationInstances = 0 → dpAbort s = s) ∧
    (s.abortFlag = true → s.abortPersistsFlag = false →
      (dpDownloadFile s true c).2.1 = DlResult.ioError ∧
      (dpDownloadFile s true c).2.2 = 0 ∧
      (dpDownloadFile s true c).1.abortFlag = false ∧
      (dpDownloadFile (dpDownloadFile s true c).1 true c2).2.1 = DlResult.ok ∧
      (dpDownloadFile (dpDownloadFile s true c).1 true c2).2.2 = c2) := by
  refine ⟨?_, ?_, ?_⟩
  · intro h1 h2
    unfold dpDownloadFile
    simp only [Bool.not_true, Bool.false_eq_true, if_false]
    rw [dpPerform_aborted (dpStartOp s) (by simpa [dpStartOp] using h1) c]
    simp [dpStartOp, dpEndOp, h2]
  · intro h
    unfold dpAbort
    rw [h]
    simp
  · intro h1 h2
    have hfirst : dpDownloadFile s true c =
        ({ s with abortFlag := false }, DlResult.ioError, 0) := by
      unfold dpDownloadFile
      simp only [Bool.not_true, Bool.false_eq_true, if_false]
      rw [dpPerform_aborted (dpStartOp s) (by simpa [dpStartOp] using h1) c]
      simp only [dpStartOp, dpEndOp, Bool.false_eq_true, if_false, h2]
      rfl
    rw [hfirst]
    have hsecond := dpPerform_clean
      (dpStartOp { s with abortFlag := false }) (by simp [dpStartOp]) c2
    unfold dpDownloadFile
    simp only [Bool.not_true, Bool.false_eq_true, if_false]
    rw [hsecond]
    simp [dpStartOp, dpEndOp]

/-- Witness for C4 at concrete states: sticky failure after `abortAll`
(flags `(true, true)`), `abort()` as a no-op on an idle provider, and the
one-shot flag (`(true, false)`) failing exactly one transfer. -/
theorem downloadProvider_abort_semantics_witness :
    (dpDownloadFile ⟨true, true, 0⟩ true 5).2.1 = DlResult.ioError ∧
    dpAbort ⟨false, false, 0⟩ = ⟨false, false, 0⟩ ∧
    (dpDownloadFile (dpDownloadFile ⟨true, false, 0⟩ true 5).1 true 7).2.2 = 7 :=
  ⟨((downloadProvider_abort_semantics ⟨true, true, 0⟩ 5 7).1 rfl rfl).1,
   (downloadProvider_abort_semantics ⟨false, false, 0⟩ 5 7).2.1 rfl,
   ((downloadProvider_abort_semantics ⟨true, false, 0⟩ 5 7).2.2 rfl rfl).2.2.2.2⟩
